import Mathlib

/-!
# Verification of the KZG accumulator core

A shallow embedding of the verification-side accumulator core of a KZG
polynomial-commitment scheme (`poly/kzg/msm.rs` and `poly/kzg/strategy.rs`):
the multiscalar-multiplication accumulator `MSMKZG`, the projective-term
collector `PreMSM`, the two-channel pairing accumulator `DualMSM`, and the
batch (`AccumulatorStrategy`) and single-proof (`SingleStrategy`) verification
strategies, together with proofs of their algebraic specification.

Modelling conventions:
* Scalars form a field `R` (the engine's scalar field is a prime field);
  the commitment group G1 is an additive commutative group `G` that is an
  `R`-module.  Affine/projective representation changes are exact and are
  modelled as the identity, so `G2Prepared::from` and `batch_normalize`
  disappear.
* The pairing target group (multiplicative `Gt` in the source) is written
  additively as `GT`, so the source's `is_identity` (result = 1) becomes
  `= 0` and the product of pairing terms becomes a sum.
* The pairing engine's `multi_miller_loop` and `final_exponentiation` are
  abstract functions `mml : List (G × G2) → MLR` and `finalExp : MLR → GT`;
  theorems about `check` assume the standard engine contract, that their
  composition is the sum (source: product) of the pairwise pairings under a
  bilinear pairing `e`.
* The engine handle `zal` carried by the Rust structs selects an MSM backend
  whose result must agree with the definitional sum (spec §6), so it is
  dropped and `eval` is the definitional sum Σ scalarᵢ • baseᵢ.
* Randomness drawn from `OsRng` is modelled by passing the drawn scalar as an
  explicit argument to `AccumulatorStrategy.process`.
-/

set_option linter.unusedSectionVars false

namespace KZGAccum

/-- Modelled from the spec: the error type `plonk::Error` lives outside the
provided sources.  Only its `ConstraintSystemFailure` variant is named by the
code under verification; `Structural` stands for the spec's
"structural/transcript" error category raised by the external verifier
routine (spec §7). -/
inductive Error where
  | ConstraintSystemFailure : Error
  | Structural : Error
deriving DecidableEq

/-- Modelled from the spec: the verifier parameter set `ParamsKZG` lives
outside the provided sources; the accumulator core consumes only its two
fixed pairing constants, `g2` = [1]₂ and `s_g2` = [s]₂ (spec §3, §6). -/
structure ParamsKZG (G2 : Type) where
  g2 : G2
  s_g2 : G2

/-- `MSMKZG` (msm.rs lines 16-21): an unevaluated linear combination held as
parallel lists of scalars and (projective) bases.  The `zal` engine handle is
dropped (see module conventions). -/
structure MSMKZG (R G : Type) where
  scalars : List R
  bases : List G

variable {R : Type} [Field R] {G : Type} [AddCommGroup G] [Module R G]
variable {G2 : Type} [AddCommGroup G2]
variable {GT : Type} [AddCommGroup GT] [Module R GT] [DecidableEq GT]
variable {MLR : Type}

/-- `MSMKZG::new` (msm.rs lines 25-31): empty accumulator. -/
def MSMKZG.new : MSMKZG R G :=
  { scalars := [], bases := [] }

/-- The loop body of `MSMKZG::combine_with_base` (msm.rs lines 36-42), acting
on the *reversed* scalar list: the source iterates `scalars.iter_mut().rev()`
with a running power `acc` starting at 1, replacing each scalar `s` by
`s * acc` and then updating `acc := acc * base`. -/
def MSMKZG.combineAux (base : R) : List R → R → List R
  | [], _ => []
  | s :: rest, acc => s * acc :: MSMKZG.combineAux base rest (acc * base)

/-- `MSMKZG::combine_with_base` (msm.rs lines 34-43).  The source's
`if !self.scalars.is_empty()` guard is dropped: the loop body never runs on an
empty vector, so guarded and unguarded forms agree. -/
def MSMKZG.combine_with_base (self : MSMKZG R G) (base : R) : MSMKZG R G :=
  { self with scalars := (MSMKZG.combineAux base self.scalars.reverse 1).reverse }

/-- `MSM::append_term` for `MSMKZG` (msm.rs lines 47-50): pushes one term at
the end of both lists. -/
def MSMKZG.append_term (self : MSMKZG R G) (scalar : R) (point : G) : MSMKZG R G :=
  { scalars := self.scalars ++ [scalar], bases := self.bases ++ [point] }

/-- `MSM::add_msm` for `MSMKZG` (msm.rs lines 52-55): extends both lists with
the other accumulator's lists. -/
def MSMKZG.add_msm (self other : MSMKZG R G) : MSMKZG R G :=
  { scalars := self.scalars ++ other.scalars, bases := self.bases ++ other.bases }

/-- `MSM::scale` for `MSMKZG` (msm.rs lines 57-65): multiplies every scalar by
`factor`, in place and in order (`parallelize` partitions the list but writes
each entry back at its own position; the empty-list guard is again a no-op). -/
def MSMKZG.scale (self : MSMKZG R G) (factor : R) : MSMKZG R G :=
  { self with scalars := self.scalars.map (fun s => s * factor) }

/-- `MSM::eval` for `MSMKZG` (msm.rs lines 71-77): batch-normalizes the bases
(exact representation change, modelled as the identity) and delegates to the
accelerated MSM engine, whose contract (spec §6) is the definitional weighted
sum Σ scalarᵢ • baseᵢ. -/
def MSMKZG.eval (self : MSMKZG R G) : G :=
  (List.zipWith (fun s b => s • b) self.scalars self.bases).sum

/-- `MSM::check` for `MSMKZG` (msm.rs lines 67-69): evaluation is the group
identity. -/
def MSMKZG.check (self : MSMKZG R G) [DecidableEq G] : Bool :=
  decide (self.eval = 0)

/-- The data-model invariant (spec §3): the scalar and base lists have equal
length. -/
def MSMKZG.wf (self : MSMKZG R G) : Prop :=
  self.scalars.length = self.bases.length

/-- `PreMSM` (msm.rs lines 90-93): a collector of separately produced MSM
accumulators, flattened later. -/
structure PreMSM (R G : Type) where
  projectives_msms : List (MSMKZG R G)

/-- `PreMSM::new` (msm.rs lines 96-101). -/
def PreMSM.new : PreMSM R G :=
  ⟨[]⟩

/-- `PreMSM::normalize` (msm.rs lines 103-117): unzips the stored accumulators
into their scalar and base lists and concatenates each side in storage order. -/
def PreMSM.normalize (self : PreMSM R G) : MSMKZG R G :=
  { scalars := (self.projectives_msms.map MSMKZG.scalars).flatten,
    bases := (self.projectives_msms.map MSMKZG.bases).flatten }

/-- `PreMSM::add_msm` (msm.rs lines 119-121): stores one accumulator,
unmodified, at the end. -/
def PreMSM.add_msm (self : PreMSM R G) (other : MSMKZG R G) : PreMSM R G :=
  ⟨self.projectives_msms ++ [other]⟩

/-- `DualMSM` (msm.rs lines 135-140): two-channel MSM accumulator plus the
verifier parameters supplying the pairing constants. -/
structure DualMSM (R G G2 : Type) where
  params : ParamsKZG G2
  left : MSMKZG R G
  right : MSMKZG R G

/-- `DualMSM::new` (msm.rs lines 144-150): both sides empty. -/
def DualMSM.new (params : ParamsKZG G2) : DualMSM R G G2 :=
  { params := params, left := MSMKZG.new, right := MSMKZG.new }

/-- `DualMSM::scale` (msm.rs lines 153-156): scales both channels by the same
factor. -/
def DualMSM.scale (self : DualMSM R G G2) (e : R) : DualMSM R G G2 :=
  { self with left := self.left.scale e, right := self.right.scale e }

/-- `DualMSM::add_msm` (msm.rs lines 159-162): merges channelwise. -/
def DualMSM.add_msm (self other : DualMSM R G G2) : DualMSM R G G2 :=
  { self with left := self.left.add_msm other.left, right := self.right.add_msm other.right }

/-- `DualMSM::check` (msm.rs lines 165-183): evaluates both channels, forms
the two pairing terms (left, [s]₂) and (right, −[1]₂), runs one multi-Miller
loop over both followed by a single final exponentiation, and tests the result
against the target-group identity (written additively: `= 0`). -/
def DualMSM.check (mml : List (G × G2) → MLR) (finalExp : MLR → GT)
    (self : DualMSM R G G2) : Bool :=
  decide (finalExp (mml
    [(self.left.eval, self.params.s_g2), (self.right.eval, -self.params.g2)]) = 0)

/-- `GuardKZG` (strategy.rs lines 29-31): wrapper for the accumulator returned
by the external proof-opening verifier. -/
structure GuardKZG (R G G2 : Type) where
  msm_accumulator : DualMSM R G G2

/-- `AccumulatorStrategy` (strategy.rs lines 53-55): batch verifier state. -/
structure AccumulatorStrategy (R G G2 : Type) where
  msm_accumulator : DualMSM R G G2

/-- `AccumulatorStrategy::new` (strategy.rs lines 59-63). -/
def AccumulatorStrategy.new (params : ParamsKZG G2) : AccumulatorStrategy R G G2 :=
  ⟨DualMSM.new params⟩

/-- `AccumulatorStrategy::process` (strategy.rs lines 110-121): scales the
running accumulator by a freshly drawn random scalar (`r`, made explicit
here), hands it to the external verifier routine `f`, and on success adopts
the guard's accumulator as the new state; an error from `f` is propagated by
the source's `?` operator. -/
def AccumulatorStrategy.process (self : AccumulatorStrategy R G G2) (r : R)
    (f : DualMSM R G G2 → Except Error (GuardKZG R G G2)) :
    Except Error (AccumulatorStrategy R G G2) :=
  match f (self.msm_accumulator.scale r) with
  | Except.ok guard => Except.ok ⟨guard.msm_accumulator⟩
  | Except.error e => Except.error e

/-- `AccumulatorStrategy::finalize` (strategy.rs lines 123-125): one pairing
check over the accumulated state. -/
def AccumulatorStrategy.finalize (mml : List (G × G2) → MLR) (finalExp : MLR → GT)
    (self : AccumulatorStrategy R G G2) : Bool :=
  self.msm_accumulator.check mml finalExp

/-- `SingleStrategy` (strategy.rs lines 73-75): single-proof verifier state. -/
structure SingleStrategy (R G G2 : Type) where
  msm : DualMSM R G G2

/-- `SingleStrategy::new` (strategy.rs lines 79-83). -/
def SingleStrategy.new (params : ParamsKZG G2) : SingleStrategy R G G2 :=
  ⟨DualMSM.new params⟩

/-- `SingleStrategy::process` (strategy.rs lines 152-164): passes the
accumulator to `f` unscaled, then immediately runs the pairing check on the
guard's accumulator, mapping a failed check to `ConstraintSystemFailure`;
an error from `f` is propagated by the source's `?` operator. -/
def SingleStrategy.process (mml : List (G × G2) → MLR) (finalExp : MLR → GT)
    (self : SingleStrategy R G G2)
    (f : DualMSM R G G2 → Except Error (GuardKZG R G G2)) : Except Error Unit :=
  match f self.msm with
  | Except.ok guard =>
      if DualMSM.check mml finalExp guard.msm_accumulator then Except.ok ()
      else Except.error Error.ConstraintSystemFailure
  | Except.error e => Except.error e

instance (A : MSMKZG R G) : Decidable A.wf :=
  inferInstanceAs (Decidable (A.scalars.length = A.bases.length))

/-! ## Concrete instantiation used to exercise the development

The scalar field is `ZMod 5`; G1, G2 and the (additively written) target
group are all `ZMod 5` as modules over itself, with the bilinear pairing
`e a b = a * b`; the engine functions satisfy the multi-pairing contract
definitionally. -/

instance : Fact (Nat.Prime 5) :=
  ⟨by norm_num⟩

/-- Concrete scalar field / group carrier. -/
abbrev K : Type := ZMod 5

/-- Concrete multi-Miller-loop: sums the pairwise products. -/
def mmlC : List (K × K) → K :=
  fun ts => (ts.map fun t => t.1 * t.2).sum

/-- Concrete final exponentiation: the identity. -/
def feC : K → K :=
  fun x => x

/-- Concrete bilinear pairing. -/
def eC : K → K → K :=
  fun a b => a * b

/-- Concrete verifier parameters: g2 = 3, s_g2 = 1. -/
def paramsC : ParamsKZG K :=
  ⟨3, 1⟩

/-- A concrete dual accumulator that fails its pairing check
(1·1 + 0·(−3) = 1 ≠ 0). -/
def DC1 : DualMSM K K K :=
  ⟨paramsC, ⟨[1], [1]⟩, ⟨[], []⟩⟩

/-- A concrete dual accumulator that passes its pairing check
(3·1 + 1·(−3) = 0). -/
def DC2 : DualMSM K K K :=
  ⟨paramsC, ⟨[3], [1]⟩, ⟨[1], [1]⟩⟩

/-- A concrete two-term MSM accumulator. -/
def AC : MSMKZG K K :=
  ⟨[1, 2], [1, 3]⟩

/-- A concrete one-term MSM accumulator. -/
def BC : MSMKZG K K :=
  ⟨[4], [2]⟩

/-- A concrete single-proof strategy state. -/
def SC : SingleStrategy K K K :=
  ⟨DC1⟩

/-- A concrete collector holding two accumulators. -/
def PC : PreMSM K K :=
  ⟨[AC, BC]⟩

/-! ## Helper lemmas -/

theorem combineAux_length (base : R) (l : List R) (acc : R) :
    (MSMKZG.combineAux base l acc).length = l.length := by
  induction l generalizing acc with
  | nil => rfl
  | cons s t ih => simp [MSMKZG.combineAux, ih]

theorem combineAux_getElem? (base : R) (l : List R) (acc : R) (i : ℕ) :
    (MSMKZG.combineAux base l acc)[i]? =
      (l[i]?).map (fun s => s * (acc * base ^ i)) := by
  induction l generalizing acc i with
  | nil => simp [MSMKZG.combineAux]
  | cons s t ih =>
    cases i with
    | zero => simp [MSMKZG.combineAux]
    | succ i =>
      simp only [MSMKZG.combineAux, List.getElem?_cons_succ]
      rw [ih]
      cases t[i]? with
      | none => rfl
      | some x =>
        show some (x * (acc * base * base ^ i)) = some (x * (acc * base ^ (i + 1)))
        exact congrArg some (by ring)

theorem combine_with_base_getElem? (A : MSMKZG R G) (base : R) (k : ℕ) :
    ((A.combine_with_base base).scalars)[k]? =
      (A.scalars[k]?).map (fun s => s * base ^ (A.scalars.length - 1 - k)) := by
  unfold MSMKZG.combine_with_base
  by_cases hk : k < A.scalars.length
  · have hlen : k < (MSMKZG.combineAux base A.scalars.reverse 1).length := by
      rw [combineAux_length, List.length_reverse]; exact hk
    rw [List.getElem?_reverse hlen, combineAux_length, List.length_reverse]
    rw [combineAux_getElem?]
    have hlt : A.scalars.length - 1 - k < A.scalars.length := by omega
    rw [List.getElem?_reverse hlt]
    have hidx : A.scalars.length - 1 - (A.scalars.length - 1 - k) = k := by omega
    rw [hidx, one_mul]
  · have h1 : (A.scalars)[k]? = none := List.getElem?_eq_none (by omega)
    have h2 : ((MSMKZG.combineAux base A.scalars.reverse 1).reverse)[k]? = none := by
      apply List.getElem?_eq_none
      rw [List.length_reverse, combineAux_length, List.length_reverse]; omega
    rw [h1, h2]; rfl

theorem combine_with_base_one_scalars (A : MSMKZG R G) :
    (A.combine_with_base (1 : R)).scalars = A.scalars := by
  apply List.ext_getElem?
  intro i
  rw [combine_with_base_getElem?]
  cases A.scalars[i]? with
  | none => rfl
  | some x =>
    show some (x * 1 ^ (A.scalars.length - 1 - i)) = some x
    rw [one_pow, mul_one]

theorem eval_scale (A : MSMKZG R G) (c : R) :
    (A.scale c).eval = c • A.eval := by
  show (List.zipWith (fun s b => s • b) (A.scalars.map fun s => s * c) A.bases).sum =
    c • (List.zipWith (fun s b => s • b) A.scalars A.bases).sum
  induction A.scalars generalizing A with
  | nil => simp
  | cons s t ih =>
    cases hb : A.bases with
    | nil => simp
    | cons b bs =>
      have := ih ⟨t, bs⟩
      simp only [List.map_cons, List.zipWith_cons_cons, List.sum_cons, smul_add] at this ⊢
      rw [this, smul_smul, mul_comm c s]

theorem eval_add_msm (A B : MSMKZG R G) (hA : A.wf) :
    (A.add_msm B).eval = A.eval + B.eval := by
  unfold MSMKZG.eval MSMKZG.add_msm
  rw [List.zipWith_append _ _ _ _ _ hA, List.sum_append]

theorem smul_eq_zero_iff_of_ne {c : R} (hc : c ≠ 0) (x : GT) :
    c • x = 0 ↔ x = 0 := by
  constructor
  · intro h
    have : c⁻¹ • (c • x) = x := by rw [smul_smul, inv_mul_cancel₀ hc, one_smul]
    rw [← this, h, smul_zero]
  · intro h
    rw [h, smul_zero]

theorem check_true_iff (mml : List (G × G2) → MLR) (finalExp : MLR → GT)
    (e : G → G2 → GT)
    (hc : ∀ ts : List (G × G2), finalExp (mml ts) = (ts.map fun t => e t.1 t.2).sum)
    (D : DualMSM R G G2) :
    D.check mml finalExp = true ↔
      e D.left.eval D.params.s_g2 + e D.right.eval (-D.params.g2) = 0 := by
  unfold DualMSM.check
  rw [hc]
  simp

theorem eval_mk_append (s1 s2 : List R) (b1 b2 : List G) (h : s1.length = b1.length) :
    (MSMKZG.mk (s1 ++ s2) (b1 ++ b2)).eval =
      (MSMKZG.mk s1 b1).eval + (MSMKZG.mk s2 b2).eval := by
  unfold MSMKZG.eval
  rw [List.zipWith_append _ _ _ _ _ h, List.sum_append]

theorem eval_flatten (ms : List (MSMKZG R G)) (h : ∀ m ∈ ms, m.wf) :
    (MSMKZG.mk (ms.map MSMKZG.scalars).flatten (ms.map MSMKZG.bases).flatten).eval =
      (ms.map MSMKZG.eval).sum := by
  induction ms with
  | nil => rfl
  | cons m rest ih =>
    have hm : m.wf := h m (List.mem_cons_self m rest)
    have hrest : ∀ x ∈ rest, x.wf := fun x hx => h x (List.mem_cons_of_mem m hx)
    simp only [List.map_cons, List.flatten_cons, List.sum_cons]
    rw [eval_mk_append _ _ _ _ hm, ih hrest]

/-! ## The claims -/

/-- C1: `AccumulatorStrategy::process` hands `verify_fn` exactly the previous
accumulator scaled channelwise by the freshly drawn scalar `r` (scaling
happens before the call), and on success the new strategy state is exactly
the accumulator inside the returned guard, while an error from `verify_fn`
is propagated. -/
theorem accumulatorStrategy_process_randomizes_then_adopts
    (s : AccumulatorStrategy R G G2) (r : R)
    (f : DualMSM R G G2 → Except Error (GuardKZG R G G2)) :
    s.process r f =
      (f (DualMSM.mk s.msm_accumulator.params (s.msm_accumulator.left.scale r)
        (s.msm_accumulator.right.scale r))).map
        (fun g => AccumulatorStrategy.mk g.msm_accumulator) := by
  have harg : DualMSM.mk s.msm_accumulator.params (s.msm_accumulator.left.scale r)
      (s.msm_accumulator.right.scale r) = s.msm_accumulator.scale r := rfl
  rw [harg]
  unfold AccumulatorStrategy.process
  cases f (s.msm_accumulator.scale r) <;> rfl

/-- C2: `DualMSM::check` runs one multi-Miller loop over exactly the two terms
(eval(left), [s]₂) and (eval(right), −[1]₂) followed by a single final
exponentiation and compares against the target identity; under the engine
contract `hc` it returns true iff
e(eval(left), [s]₂) + e(eval(right), −[1]₂) = 0 (target group written
additively). -/
theorem dualMSM_check_pairing_iff (mml : List (G × G2) → MLR) (finalExp : MLR → GT)
    (e : G → G2 → GT)
    (hc : ∀ ts : List (G × G2), finalExp (mml ts) = (ts.map fun t => e t.1 t.2).sum)
    (D : DualMSM R G G2) :
    (D.check mml finalExp =
      decide (finalExp (mml [(D.left.eval, D.params.s_g2),
        (D.right.eval, -D.params.g2)]) = 0)) ∧
    (D.check mml finalExp = true ↔
      e D.left.eval D.params.s_g2 + e D.right.eval (-D.params.g2) = 0) :=
  ⟨rfl, check_true_iff mml finalExp e hc D⟩

/-- Witness for C2 at the concrete instantiation: an accumulator whose
pairing terms cancel passes the check. -/
theorem dualMSM_check_pairing_iff_witness :
    DualMSM.check mmlC feC DC2 = true :=
  (dualMSM_check_pairing_iff mmlC feC eC (fun ts => rfl) DC2).2.mpr (by decide)

/-- C3: `combine_with_base` leaves the bases untouched, rescales the k-th of
n scalars by base^(n−1−k) (most recent term gets base⁰), is a no-op on an
empty accumulator, does not change the evaluation when base = 1, and on a
two-term accumulator yields (s0·b)·p0 + s1·p1. -/
theorem combine_with_base_weights_spec (A : MSMKZG R G) (base : R) :
    (A.combine_with_base base).bases = A.bases ∧
    (A.combine_with_base base).scalars.length = A.scalars.length ∧
    (∀ k : ℕ, ((A.combine_with_base base).scalars)[k]? =
      (A.scalars[k]?).map (fun s => s * base ^ (A.scalars.length - 1 - k))) ∧
    (A.scalars = [] → A.combine_with_base base = A) ∧
    ((A.combine_with_base (1 : R)).eval = A.eval) ∧
    (∀ (s0 s1 : R) (p0 p1 : G),
      ((MSMKZG.mk [s0, s1] [p0, p1]).combine_with_base base).eval =
        (s0 * base) • p0 + s1 • p1) := by
  refine ⟨rfl, ?_, fun k => combine_with_base_getElem? A base k, ?_, ?_, ?_⟩
  · show ((MSMKZG.combineAux base A.scalars.reverse 1).reverse).length = _
    rw [List.length_reverse, combineAux_length, List.length_reverse]
  · intro h
    cases A with
    | mk sc bs =>
      simp only at h
      subst h
      rfl
  · have hs := combine_with_base_one_scalars A
    unfold MSMKZG.eval
    rw [hs]
    rfl
  · intro s0 s1 p0 p1
    simp [MSMKZG.combine_with_base, MSMKZG.combineAux, MSMKZG.eval]

/-- Witness for C3: the no-op case on an empty accumulator, concretely. -/
theorem combine_with_base_weights_spec_witness :
    (MSMKZG.mk ([] : List K) ([] : List K)).combine_with_base 2 = MSMKZG.mk [] [] :=
  (combine_with_base_weights_spec (MSMKZG.mk ([] : List K) ([] : List K)) 2).2.2.2.1 rfl

/-- C4: `scale` multiplies every scalar in place by the factor without
touching or reordering the bases, and evaluation scales accordingly. -/
theorem scale_inplace_eval_smul (A : MSMKZG R G) (c : R) :
    (A.scale c).scalars = A.scalars.map (fun s => s * c) ∧
    (A.scale c).bases = A.bases ∧
    (A.scale c).eval = c • A.eval :=
  ⟨rfl, rfl, eval_scale A c⟩

/-- C5: `add_msm` concatenates the term lists, adds the term counts, and adds
the evaluations; by commutativity merging in either order evaluates
identically. -/
theorem add_msm_concat_eval_add (A B : MSMKZG R G) (hA : A.wf) (hB : B.wf) :
    (A.add_msm B).scalars = A.scalars ++ B.scalars ∧
    (A.add_msm B).bases = A.bases ++ B.bases ∧
    (A.add_msm B).scalars.length = A.scalars.length + B.scalars.length ∧
    (A.add_msm B).eval = A.eval + B.eval ∧
    (A.add_msm B).eval = (B.add_msm A).eval := by
  refine ⟨rfl, rfl, List.length_append _ _, eval_add_msm A B hA, ?_⟩
  rw [eval_add_msm A B hA, eval_add_msm B A hB, add_comm]

/-- Witness for C5 at concrete two- and one-term accumulators. -/
theorem add_msm_concat_eval_add_witness :
    AC.wf ∧ BC.wf ∧ (AC.add_msm BC).eval = AC.eval + BC.eval :=
  ⟨rfl, rfl, (add_msm_concat_eval_add AC BC rfl rfl).2.2.2.1⟩

/-- C6 counterexample: the claim "check(scale(D, c)) = check(D) for every
scalar c" fails at c = 0: scaling the concrete failing accumulator DC1 by the
zero scalar erases both channels, turning its failing check into a passing
one. -/
theorem dualMSM_scale_zero_counterexample :
    DualMSM.check mmlC feC (DualMSM.scale DC1 0) ≠ DualMSM.check mmlC feC DC1 := by
  decide

/-- C6 (amended): `DualMSM::scale` applies the identical factor to both the
left and the right channel, and for every nonzero factor the truth value of
the pairing check is preserved. -/
theorem dualMSM_scale_preserves_check_of_ne_zero
    (mml : List (G × G2) → MLR) (finalExp : MLR → GT) (e : G → G2 → GT)
    (hc : ∀ ts : List (G × G2), finalExp (mml ts) = (ts.map fun t => e t.1 t.2).sum)
    (hlin : ∀ (c : R) (a : G) (y : G2), e (c • a) y = c • e a y)
    (D : DualMSM R G G2) (c : R) :
    (D.scale c).left = D.left.scale c ∧
    (D.scale c).right = D.right.scale c ∧
    (c ≠ 0 → DualMSM.check mml finalExp (D.scale c) = DualMSM.check mml finalExp D) := by
  refine ⟨rfl, rfl, fun hcne => ?_⟩
  have h1 := check_true_iff mml finalExp e hc (D.scale c)
  have h2 := check_true_iff mml finalExp e hc D
  have hL : (D.scale c).left.eval = c • D.left.eval := eval_scale D.left c
  have hR : (D.scale c).right.eval = c • D.right.eval := eval_scale D.right c
  have hparams : (D.scale c).params = D.params := rfl
  rw [hparams, hL, hR, hlin, hlin, ← smul_add, smul_eq_zero_iff_of_ne hcne] at h1
  exact Bool.eq_iff_iff.mpr (h1.trans h2.symm)

/-- Witness for the amended C6: scaling the failing accumulator DC1 by the
nonzero scalar 2 leaves its check outcome unchanged. -/
theorem dualMSM_scale_preserves_check_of_ne_zero_witness :
    (2 : K) ≠ 0 ∧
    DualMSM.check mmlC feC (DualMSM.scale DC1 2) = DualMSM.check mmlC feC DC1 :=
  ⟨by decide, (dualMSM_scale_preserves_check_of_ne_zero mmlC feC eC (fun ts => rfl)
    (by decide) DC1 2).2.2 (by decide)⟩

/-- C7: `PreMSM::normalize` concatenates the stored accumulators' scalar and
base lists in storage order (pure relabeling, no arithmetic), its term count
is the sum of the stored counts, and it evaluates to the sum of their
evaluations. -/
theorem normalize_concat_eval_sum (P : PreMSM R G)
    (hwf : ∀ m ∈ P.projectives_msms, m.wf) :
    P.normalize.scalars = (P.projectives_msms.map MSMKZG.scalars).flatten ∧
    P.normalize.bases = (P.projectives_msms.map MSMKZG.bases).flatten ∧
    P.normalize.scalars.length =
      (P.projectives_msms.map (fun m => m.scalars.length)).sum ∧
    P.normalize.eval = (P.projectives_msms.map MSMKZG.eval).sum := by
  refine ⟨rfl, rfl, ?_, ?_⟩
  · show ((P.projectives_msms.map MSMKZG.scalars).flatten).length = _
    rw [List.length_flatten, List.map_map]
    rfl
  · exact eval_flatten P.projectives_msms hwf

/-- Witness for C7 at a concrete two-accumulator collector. -/
theorem normalize_concat_eval_sum_witness :
    (∀ m ∈ PC.projectives_msms, m.wf) ∧
    PC.normalize.eval = (PC.projectives_msms.map MSMKZG.eval).sum :=
  ⟨by decide, (normalize_concat_eval_sum PC (by decide)).2.2.2⟩

/-- C8: `SingleStrategy::process` passes its accumulator to `verify_fn`
unscaled; when `verify_fn` succeeds it immediately runs the pairing check on
the guard's accumulator, returning success iff the check passes and
`ConstraintSystemFailure` otherwise; a structural error from `verify_fn` is
propagated unchanged and no pairing check happens. -/
theorem singleStrategy_process_spec (mml : List (G × G2) → MLR) (finalExp : MLR → GT)
    (s : SingleStrategy R G G2)
    (f : DualMSM R G G2 → Except Error (GuardKZG R G G2)) :
    (∀ g, f s.msm = Except.ok g →
      SingleStrategy.process mml finalExp s f =
        (if DualMSM.check mml finalExp g.msm_accumulator then Except.ok ()
         else Except.error Error.ConstraintSystemFailure)) ∧
    (∀ er, f s.msm = Except.error er →
      SingleStrategy.process mml finalExp s f = Except.error er) := by
  constructor <;> intro x hx <;> unfold SingleStrategy.process <;> rw [hx]

/-- Witness for C8: a structural error from the verifier routine is
propagated unchanged. -/
theorem singleStrategy_process_spec_witness :
    SingleStrategy.process mmlC feC SC (fun _ => Except.error Error.Structural) =
      Except.error Error.Structural :=
  (singleStrategy_process_spec mmlC feC SC (fun _ => Except.error Error.Structural)).2
    Error.Structural rfl

/-- C9: every MSM-accumulator operation, and the collector's `normalize`,
preserves the equal-length invariant on the scalar and base lists. -/
theorem ops_preserve_wf (A B : MSMKZG R G) (s c base : R) (p : G) (P : PreMSM R G) :
    (MSMKZG.new : MSMKZG R G).wf ∧
    (A.wf → (A.append_term s p).wf) ∧
    (A.wf → B.wf → (A.add_msm B).wf) ∧
    (A.wf → (A.scale c).wf) ∧
    (A.wf → (A.combine_with_base base).wf) ∧
    ((∀ m ∈ P.projectives_msms, m.wf) → P.normalize.wf) := by
  refine ⟨rfl, ?_, ?_, ?_, ?_, ?_⟩
  · intro h
    have hlen : A.scalars.length = A.bases.length := h
    simp [MSMKZG.append_term, MSMKZG.wf, hlen]
  · intro h1 h2
    have hlen1 : A.scalars.length = A.bases.length := h1
    have hlen2 : B.scalars.length = B.bases.length := h2
    simp [MSMKZG.add_msm, MSMKZG.wf, hlen1, hlen2]
  · intro h
    have hlen : A.scalars.length = A.bases.length := h
    simp [MSMKZG.scale, MSMKZG.wf, hlen]
  · intro h
    show ((MSMKZG.combineAux base A.scalars.reverse 1).reverse).length = A.bases.length
    rw [List.length_reverse, combineAux_length, List.length_reverse, h]
  · intro hwf
    show ((P.projectives_msms.map MSMKZG.scalars).flatten).length =
      ((P.projectives_msms.map MSMKZG.bases).flatten).length
    rw [List.length_flatten, List.length_flatten, List.map_map, List.map_map]
    congr 1
    exact List.map_congr_left (fun m hm => hwf m hm)

/-- Witness for C9 at concrete accumulators and collector. -/
theorem ops_preserve_wf_witness :
    AC.wf ∧ BC.wf ∧ (AC.add_msm BC).wf ∧
    (∀ m ∈ PC.projectives_msms, m.wf) ∧ PC.normalize.wf :=
  ⟨rfl, rfl, (ops_preserve_wf AC BC 1 1 1 1 PC).2.2.1 rfl rfl, by decide,
   (ops_preserve_wf AC BC 1 1 1 1 PC).2.2.2.2.2 (by decide)⟩

/-- C10: an empty MSM accumulator evaluates to the group identity, a dual
accumulator with both channels empty passes its pairing check, and therefore
finalizing a fresh batch strategy (zero proofs processed) returns true. -/
theorem empty_accumulator_verifies (mml : List (G × G2) → MLR) (finalExp : MLR → GT)
    (e : G → G2 → GT)
    (hc : ∀ ts : List (G × G2), finalExp (mml ts) = (ts.map fun t => e t.1 t.2).sum)
    (he0 : ∀ y : G2, e (0 : G) y = 0) (params : ParamsKZG G2) :
    (MSMKZG.new : MSMKZG R G).eval = 0 ∧
    DualMSM.check mml finalExp (DualMSM.new params : DualMSM R G G2) = true ∧
    AccumulatorStrategy.finalize mml finalExp
      (AccumulatorStrategy.new params : AccumulatorStrategy R G G2) = true := by
  have hcheck : DualMSM.check mml finalExp (DualMSM.new params : DualMSM R G G2) = true := by
    apply (check_true_iff mml finalExp e hc _).mpr
    show e (0 : G) params.s_g2 + e (0 : G) (-params.g2) = 0
    rw [he0, he0, add_zero]
  exact ⟨rfl, hcheck, hcheck⟩

/-- Witness for C10 at the concrete instantiation. -/
theorem empty_accumulator_verifies_witness :
    DualMSM.check mmlC feC (DualMSM.new paramsC : DualMSM K K K) = true ∧
    AccumulatorStrategy.finalize mmlC feC
      (AccumulatorStrategy.new paramsC : AccumulatorStrategy K K K) = true :=
  ⟨(empty_accumulator_verifies mmlC feC eC (fun ts => rfl) (by decide) paramsC).2.1,
   (empty_accumulator_verifies mmlC feC eC (fun ts => rfl) (by decide) paramsC).2.2⟩

end KZGAccum
